import Mathlib

/-!
# Packet streaming in `main.c` (VU1 double-buffered draw loop)

A shallow embedding of `vifSendPacket`, `vifCreatePacket`, `vu_add_unpack_data`
and `draw_cube` of `src/main.c`, and theorems about the batch loop, the packet
layout and the order of dispatcher operations.

Conventions.

* C integers are `Nat`/`Int`; every conversion to `u32`/`u64` is an explicit
  reduction modulo `2^32`/`2^64`.
* The two packet buffers `vif_packets2[0]`, `vif_packets2[1]` are separate
  allocations; a pointer into them is a pair (buffer, 64-bit word index).
* Everything that comes from the platform headers (the `DMA_TAG` macro, the tag
  ids, the channel numbers) and every global that `draw_cube` only reads is a
  field of `Env`: the theorems hold for all values of these fields.
* The operations issued to the DMA library are recorded, in program order, in
  the `trace` field of the state.
-/

namespace Vu1

/-! ## Machine words -/

/-- Conversion of a non-negative value to `u32`. -/
def u32 (x : Nat) : Nat := x % 2 ^ 32

/-- Conversion of a non-negative value to `u64`. -/
def u64 (x : Nat) : Nat := x % 2 ^ 64

/-- Conversion of a C `int` (or of a pointer computed in `Int`) to `u32`. -/
def toU32 (x : Int) : Nat := (x % 2 ^ 32).toNat

/-! ## Constants of `main.c` -/

/-- The batch size: `#define BATCH 69`. -/
def BATCH : Int := 69

/-- The unpack format: `#define UNPACK_V4_32 0x0C`. -/
def UNPACK_V4_32 : Nat := 0x0C

/-- The VIF command: `#define VIF_NOP 0`. -/
def VIF_NOP : Nat := 0

/-- The VIF command: `#define VIF_STCYCL 1`. -/
def VIF_STCYCL : Nat := 1

/-- The VIF command: `#define VIF_FLUSH 17`. -/
def VIF_FLUSH : Nat := 17

/-- The VIF command: `#define VIF_MSCALF 21`. -/
def VIF_MSCALF : Nat := 21

/-- The macro `VIF_CODE(_immediate, _num, _cmd, _irq)`:
`(u32)(_immediate) | ((u32)(_num) << 16) | ((u32)(_cmd) << 24) | ((u32)(_irq) << 31)`,
every shift taken in `u32`. -/
def VIF_CODE (imm num cmd irq : Nat) : Nat :=
  u32 imm ||| u32 (u32 num <<< 16) ||| u32 (u32 cmd <<< 24) ||| u32 (u32 irq <<< 31)

/-- The size in bytes that `vifCreatePacket(size)` asks of `memalign`:
`size * 16`, computed in `u32`. -/
def vifCreatePacket (size : Nat) : Nat := u32 (u32 size * 16)

/-! ## Environment -/

/-- What `main.c` takes from outside the functions embedded here.

The first six fields come from the platform headers, which are not part of the
repository: the macro `DMA_TAG(QWC, PCE, ID, IRQ, ADDR, SPR)`, the tag ids
`DMA_CNT`, `DMA_REF`, `DMA_END` and the channel numbers.  The other fields are
globals that `draw_cube` reads and never assigns: the two pointers stored in
`vif_packets2` by `main`, the address of `local_screen`,
`zbyszek_packet->base`, the value of `packet2_get_qw_count(zbyszek_packet)`,
and the pointers `c_verts` and `c_sts` set by `render`. -/
structure Env where
  DMA_TAG : Nat → Nat → Nat → Nat → Nat → Nat → Nat
  DMA_CNT : Nat
  DMA_REF : Nat
  DMA_END : Nat
  DMA_CHANNEL_GIF : Nat
  DMA_CHANNEL_VIF1 : Nat
  vif_packets2 : Nat → Nat
  local_screen : Nat
  zbyszek_base : Nat
  zbyszek_qwc : Int
  c_verts : Nat
  c_sts : Nat

/-! ## State -/

/-- An operation observed by a recording dispatcher.

* `wait ch`: a blocking wait until channel `ch` is idle (`dmaKit_wait(ch, 0)`
  in `vifSendPacket`, `dma_channel_wait(ch, 0)` in `draw_cube`);
* `flushCache`: `FlushCache(0)`;
* `sendChain ch addr`: `dmaKit_send_chain(ch, addr, 0)`;
* `write b i`: a store to the 64-bit word `i` of packet buffer `b`;
* `flip`: the assignment `context = !context`. -/
inductive Event where
  | wait (ch : Nat)
  | flushCache
  | sendChain (ch : Nat) (addr : Nat)
  | write (b : Nat) (i : Nat)
  | flip
  deriving DecidableEq

/-- A pointer of type `u64 *` into a packet buffer: the buffer and the index of
the 64-bit word pointed to. -/
structure Ptr where
  buf : Nat
  idx : Nat
  deriving DecidableEq

/-- The pointer one `u64` further (`p + 1`). -/
def Ptr.succ (p : Ptr) : Ptr := ⟨p.buf, p.idx + 1⟩

/-- The mutable state of the program that `draw_cube` touches.

* `context`: the global `u8 context`;
* `mem b i`: the 64-bit word `i` of the buffer `vif_packets2[b]`;
* `curr_vif_packet2`: the global write cursor;
* `trace`: the dispatcher operations so far, oldest first;
* `batches`: a ghost log of the pairs `(verticesDrawn, count)` of the loop
  iterations so far, oldest first. -/
structure State where
  context : Nat
  mem : Nat → Nat → Nat
  curr_vif_packet2 : Ptr
  trace : List Event
  batches : List (Int × Int)

/-- The state at the entry of one call: context `c0`, buffer contents `mem`,
nothing recorded yet. -/
def State.init (c0 : Nat) (mem : Nat → Nat → Nat) : State :=
  { context := c0, mem := mem, curr_vif_packet2 := ⟨0, 0⟩, trace := [], batches := [] }

/-- The store `*p = v` through a `u64 *`. -/
def store (s : State) (p : Ptr) (v : Nat) : State :=
  { s with
    mem := fun b i => if b = p.buf ∧ i = p.idx then u64 v else s.mem b i
    trace := s.trace ++ [Event.write p.buf p.idx] }

/-- The call `memset(p, 0, 8 * n)` on a `u64 *`: the `n` consecutive 64-bit
words from `p` on are set to zero, lowest address first. -/
def memsetZero (s : State) (p : Ptr) : Nat → State
  | 0 => s
  | n + 1 => memsetZero (store s p 0) p.succ n

/-- The statement `*curr_vif_packet2++ = v`. -/
def storeCurr (s : State) (v : Nat) : State :=
  { store s s.curr_vif_packet2 v with curr_vif_packet2 := s.curr_vif_packet2.succ }

/-- A blocking wait on a channel. -/
def dma_wait (s : State) (ch : Nat) : State :=
  { s with trace := s.trace ++ [Event.wait ch] }

/-! ## The functions of `main.c` -/

/-- The function `vifSendPacket(packet, vif_channel)`, lines 112-118. -/
def vifSendPacket (E : Env) (s : State) (packet : Nat) (vif_channel : Nat) : State :=
  let s := dma_wait s E.DMA_CHANNEL_GIF
  let s := dma_wait s vif_channel
  let s := { s with trace := s.trace ++ [Event.flushCache] }
  { s with trace := s.trace ++ [Event.sendChain vif_channel (u32 packet &&& 0x0FFFFFFF)] }

/-- The function `vu_add_unpack_data(p_data, t_dest_address, t_data, t_size,
t_use_top)`, lines 157-165.  The result is the state after the two stores and
the returned pointer. -/
def vu_add_unpack_data (E : Env) (s : State) (p_data : Ptr)
    (t_dest_address t_data t_size t_use_top : Nat) : State × Ptr :=
  let s := store s p_data (E.DMA_TAG t_size 0 E.DMA_REF 0 t_data 0)
  let p_data := p_data.succ
  let s := store s p_data
    (VIF_CODE (0x0101 ||| (0 <<< 8)) 0 VIF_STCYCL 0 |||
      u64 (VIF_CODE (t_dest_address ||| u32 (1 <<< 14) ||| u32 (t_use_top <<< 15))
            (if t_size = 256 then 0 else t_size)
            (UNPACK_V4_32 ||| u32 (0 <<< 4) ||| 0x60) 0 <<< 32))
  (s, p_data.succ)

/-- The statement `curr_vif_packet2 = vu_add_unpack_data(curr_vif_packet2, ...)`. -/
def addUnpackCurr (E : Env) (s : State)
    (t_dest_address t_data t_size t_use_top : Nat) : State :=
  let r := vu_add_unpack_data E s s.curr_vif_packet2 t_dest_address t_data t_size t_use_top
  { r.1 with curr_vif_packet2 := r.2 }

/-- The statement `context = !context`. -/
def flipContext (s : State) : State :=
  { s with
    context := if s.context = 0 then 1 else 0
    trace := s.trace ++ [Event.flip] }

/-- One iteration of the `while` loop of `draw_cube`, lines 186-234, entered
with the given values of `verticesToDraw` and `verticesDrawn`.  The result is
the state and the new values of the two counters.

`memset(curr_vif_packet2, 0, 16 * 6)` clears 96 bytes, that is `16 * 6 / 8`
words.  The last `vif_added_bytes += BATCH` (line 219) and the `nop` barrier
(line 227) have no effect on the state and are left out.  The pair
`(verticesDrawn, count)` is logged where the counters are updated. -/
def draw_cube_iter (E : Env) (s : State) (verticesToDraw verticesDrawn : Int) :
    State × Int × Int :=
  let s := dma_wait s E.DMA_CHANNEL_VIF1
  let count : Int := if verticesToDraw < BATCH then verticesToDraw else BATCH
  let s := { s with curr_vif_packet2 := ⟨s.context, 0⟩ }
  let s := memsetZero s s.curr_vif_packet2 (16 * 6 / 8)
  let s := storeCurr s (E.DMA_TAG 0 0 E.DMA_CNT 0 0 0)
  let s := storeCurr s (VIF_CODE 0 0 VIF_FLUSH 0 ||| u64 (VIF_CODE 0 0 VIF_NOP 0 <<< 32))
  let s := addUnpackCurr E s 0 E.local_screen 8 0
  let vif_added_bytes : Nat := 0
  let size : Int := E.zbyszek_qwc
  let s := addUnpackCurr E s vif_added_bytes E.zbyszek_base (toU32 size) 1
  let vif_added_bytes := u32 (vif_added_bytes + toU32 size)
  let s := addUnpackCurr E s vif_added_bytes (toU32 (E.c_verts + 16 * verticesDrawn))
    (toU32 BATCH) 1
  let vif_added_bytes := u32 (vif_added_bytes + toU32 BATCH)
  let s := addUnpackCurr E s vif_added_bytes (toU32 (E.c_sts + 16 * verticesDrawn))
    (toU32 BATCH) 1
  let s := storeCurr s (E.DMA_TAG 0 0 E.DMA_CNT 0 0 0)
  let s := storeCurr s (VIF_CODE 0 0 VIF_FLUSH 0 ||| u64 (VIF_CODE 0 0 VIF_MSCALF 0 <<< 32))
  let s := storeCurr s (E.DMA_TAG 0 0 E.DMA_END 0 0 0)
  let s := storeCurr s (VIF_CODE 0 0 VIF_NOP 0 ||| u64 (VIF_CODE 0 0 VIF_NOP 0 <<< 32))
  let s := vifSendPacket E s (E.vif_packets2 s.context) E.DMA_CHANNEL_VIF1
  let s := { s with batches := s.batches ++ [(verticesDrawn, count)] }
  (flipContext s, verticesToDraw - count, verticesDrawn + count)

/-- The `while (verticesToDraw > 0)` loop of `draw_cube`, with a bound on the
number of iterations: `none` when the bound is reached with vertices left. -/
def draw_cube_loop (E : Env) : Nat → State → Int → Int → Option State
  | 0, s, verticesToDraw, _ => if verticesToDraw > 0 then none else some s
  | fuel + 1, s, verticesToDraw, verticesDrawn =>
    if verticesToDraw > 0 then
      let r := draw_cube_iter E s verticesToDraw verticesDrawn
      draw_cube_loop E fuel r.1 r.2.1 r.2.2
    else some s

/-- The streaming part of `draw_cube`, lines 182-235, for a mesh of
`faces_count` face vertices.  The three matrix computations of lines 178-180
assign only the matrices, which the packets refer to by address.  Every
iteration lowers `verticesToDraw` by at least one, so `faces_count` iterations
are allowed. -/
def draw_cube (E : Env) (faces_count : Int) (s : State) : Option State :=
  draw_cube_loop E faces_count.toNat s faces_count 0

/-! ## A sample environment -/

/-- An example tag layout, used only to evaluate the definitions on concrete
inputs: quadword count in bits 0-15, id in bits 28-30, source address in bits
32-62 (the layout of the EE DMA tag). -/
def tagLayout (qwc pce id irq addr spr : Nat) : Nat :=
  (qwc &&& 0xFFFF) ||| ((pce &&& 3) <<< 26) ||| ((id &&& 7) <<< 28) ||| ((irq &&& 1) <<< 31) |||
    ((addr &&& 0x7FFFFFFF) <<< 32) ||| ((spr &&& 1) <<< 63)

/-- An example environment, used only to evaluate the definitions on concrete
inputs. -/
def sampleEnv : Env :=
  { DMA_TAG := tagLayout, DMA_CNT := 1, DMA_REF := 3, DMA_END := 7,
    DMA_CHANNEL_GIF := 2, DMA_CHANNEL_VIF1 := 1,
    vif_packets2 := fun b => 0x20100000 + 0x100 * b,
    local_screen := 0x180000, zbyszek_base := 0x190000, zbyszek_qwc := 6,
    c_verts := 0x1a0000, c_sts := 0x1b0000 }

/-- Packet buffers filled with zeros. -/
def zeroMem : Nat → Nat → Nat := fun _ _ => 0

/-! ## Specification side -/

/-- The low 32-bit half of a 64-bit word. -/
def lowerHalf (w : Nat) : Nat := w % 2 ^ 32

/-- The high 32-bit half of a 64-bit word. -/
def upperHalf (w : Nat) : Nat := w / 2 ^ 32

/-- The immediate field of a VIF code: bits 0-15. -/
def vifImmediate (c : Nat) : Nat := c % 2 ^ 16

/-- The NUM (length) field of a VIF code: bits 16-23. -/
def vifNum (c : Nat) : Nat := c / 2 ^ 16 % 2 ^ 8

/-- The command field of a VIF code: bits 24-30. -/
def vifCmd (c : Nat) : Nat := c / 2 ^ 24 % 2 ^ 7

/-- The interrupt bit of a VIF code: bit 31. -/
def vifIrq (c : Nat) : Nat := c / 2 ^ 31 % 2

/-- The length that a NUM field stands for: zero means 256. -/
def decodeNum (n : Nat) : Nat := if n = 0 then 256 else n

/-- The UNPACK code that `vu_add_unpack_data` leaves in the buffer: the high
half of the word stored at `p_data + 1`. -/
def unpackCodeAt (E : Env) (s : State) (p : Ptr)
    (t_dest_address t_data t_size t_use_top : Nat) : Nat :=
  upperHalf ((vu_add_unpack_data E s p t_dest_address t_data t_size t_use_top).1.mem
    p.buf (p.idx + 1))

/-- The value of the second word of an unpack command, before the store
truncates it to 64 bits. -/
def unpackWord (dest size top : Nat) : Nat :=
  VIF_CODE (0x0101 ||| (0 <<< 8)) 0 VIF_STCYCL 0 |||
    u64 (VIF_CODE (dest ||| u32 (1 <<< 14) ||| u32 (top <<< 15))
      (if size = 256 then 0 else size) (UNPACK_V4_32 ||| u32 (0 <<< 4) ||| 0x60) 0 <<< 32)

/-- The fourteen words of the packet of one batch, in buffer order: the opening
`DMA_CNT` tag with `FLUSH`/`NOP`, four unpack commands (matrix, cube data,
vertices, texture coordinates), each a by-reference tag followed by the
buffer-partition instruction, the `DMA_CNT` tag with `FLUSH`/`MSCALF`, and the
`DMA_END` tag with two `NOP`s. -/
def packetWords (E : Env) (verticesDrawn : Int) : List Nat :=
  [ u64 (E.DMA_TAG 0 0 E.DMA_CNT 0 0 0),
    u64 (VIF_CODE 0 0 VIF_FLUSH 0 ||| u64 (VIF_CODE 0 0 VIF_NOP 0 <<< 32)),
    u64 (E.DMA_TAG 8 0 E.DMA_REF 0 E.local_screen 0),
    u64 (unpackWord 0 8 0),
    u64 (E.DMA_TAG (toU32 E.zbyszek_qwc) 0 E.DMA_REF 0 E.zbyszek_base 0),
    u64 (unpackWord 0 (toU32 E.zbyszek_qwc) 1),
    u64 (E.DMA_TAG (toU32 BATCH) 0 E.DMA_REF 0 (toU32 (E.c_verts + 16 * verticesDrawn)) 0),
    u64 (unpackWord (u32 (0 + toU32 E.zbyszek_qwc)) (toU32 BATCH) 1),
    u64 (E.DMA_TAG (toU32 BATCH) 0 E.DMA_REF 0 (toU32 (E.c_sts + 16 * verticesDrawn)) 0),
    u64 (unpackWord (u32 (u32 (0 + toU32 E.zbyszek_qwc) + toU32 BATCH)) (toU32 BATCH) 1),
    u64 (E.DMA_TAG 0 0 E.DMA_CNT 0 0 0),
    u64 (VIF_CODE 0 0 VIF_FLUSH 0 ||| u64 (VIF_CODE 0 0 VIF_MSCALF 0 <<< 32)),
    u64 (E.DMA_TAG 0 0 E.DMA_END 0 0 0),
    u64 (VIF_CODE 0 0 VIF_NOP 0 ||| u64 (VIF_CODE 0 0 VIF_NOP 0 <<< 32)) ]

/-- The operations of one batch cycle that works on buffer `c`: the wait on
VIF1, the twelve stores of `memset`, the fourteen stores of the packet, the
four operations of `vifSendPacket` on that same buffer, and last the flip. -/
def cycleTrace (E : Env) (c : Nat) : List Event :=
  [Event.wait E.DMA_CHANNEL_VIF1] ++ (List.range 12).map (Event.write c) ++
    (List.range 14).map (Event.write c) ++
    [Event.wait E.DMA_CHANNEL_GIF, Event.wait E.DMA_CHANNEL_VIF1, Event.flushCache,
      Event.sendChain E.DMA_CHANNEL_VIF1 (u32 (E.vif_packets2 c) &&& 0x0FFFFFFF), Event.flip]

/-- The number of batch cycles for `N` face vertices: `N / 69` rounded up, and
zero when `N` is not positive. -/
def numCycles (N : Int) : Nat := ((N + 68) / 69).toNat

/-- The batch with index `i` of a stream of `N` face vertices: its offset and
its count. -/
def batchAt (N : Int) (i : Nat) : Int × Int := (69 * (i : Int), min 69 (N - 69 * (i : Int)))

/-- The list `L` of (offset, count) pairs is a partition of `[0, N)` into
batches: it starts at offset 0, every offset is the previous offset plus the
previous count, every count is `min BATCH (N - offset)` and at least 1, the
counts add up to `N`, the last count is `N mod BATCH` (or `BATCH` when that is
zero), and every index of `[0, N)` lies in exactly one batch. -/
def IsBatchPartition (N : Int) (L : List (Int × Int)) : Prop :=
  (∀ p, L.head? = some p → p.1 = 0) ∧
  (∀ i p q, L[i]? = some p → L[i + 1]? = some q → q.1 = p.1 + p.2) ∧
  (∀ p, p ∈ L → p.2 = min BATCH (N - p.1) ∧ 1 ≤ p.2) ∧
  (L.map Prod.snd).sum = N ∧
  (∀ p, L.getLast? = some p → p.2 = if N % BATCH = 0 then BATCH else N % BATCH) ∧
  (∀ j : Int, 0 ≤ j → j < N → ∃! i : Nat, ∃ p, L[i]? = some p ∧ p.1 ≤ j ∧ j < p.1 + p.2)

/-- Whether an operation is the issue of a chain transfer. -/
def Event.isSend : Event → Bool
  | .sendChain _ _ => true
  | _ => false

/-- Every store to a packet buffer in the trace `T` comes after a wait on the
channel `vif1` with no transfer issued between that wait and the store. -/
def WaitBeforeWrite (vif1 : Nat) (T : List Event) : Prop :=
  ∀ i b j, T[i]? = some (Event.write b j) →
    ∃ w : Nat, w < i ∧ T[w]? = some (Event.wait vif1) ∧
      ∀ m : Nat, w < m → m < i → ∀ ch a, T[m]? ≠ some (Event.sendChain ch a)

/-- A run over a trace that keeps one flag, "the channel `vif1` has been waited
for since the last transfer was issued", and accepts a store only when the flag
is set. -/
def drainedCheck (vif1 : Nat) : Bool → List Event → Bool
  | _, [] => true
  | d, Event.wait ch :: T => drainedCheck vif1 (d || ch == vif1) T
  | _, Event.sendChain _ _ :: T => drainedCheck vif1 false T
  | d, Event.write _ _ :: T => d && drainedCheck vif1 d T
  | d, Event.flushCache :: T => drainedCheck vif1 d T
  | d, Event.flip :: T => drainedCheck vif1 d T

/-- The words `i + 2, ..., i + 2 + 2 * n - 1` of the buffer `buf` hold the `n`
quadwords `payload` (two 64-bit words each): the payload of an unpack command
at word index `i` would be stored in the buffer right after the command. -/
def PayloadFollows (buf : Nat → Nat) (i n : Nat) (payload : Nat → Nat) : Prop :=
  ∀ j, j < 2 * n → buf (i + 2 + j) = payload j

/-- The size in quadwords of one 4x4 matrix of 32-bit floats. -/
def matrixQuadwords : Nat := 4 * 4 * 4 / 16

/-! ## Projections of the state after each primitive -/

theorem toU32_BATCH : toU32 BATCH = 69 := by decide

theorem store_mem (s : State) (p : Ptr) (v b i : Nat) :
    (store s p v).mem b i = if b = p.buf ∧ i = p.idx then u64 v else s.mem b i := rfl

theorem store_trace (s : State) (p : Ptr) (v : Nat) :
    (store s p v).trace = s.trace ++ [Event.write p.buf p.idx] := rfl

theorem store_context (s : State) (p : Ptr) (v : Nat) :
    (store s p v).context = s.context := rfl

theorem store_curr (s : State) (p : Ptr) (v : Nat) :
    (store s p v).curr_vif_packet2 = s.curr_vif_packet2 := rfl

theorem store_batches (s : State) (p : Ptr) (v : Nat) :
    (store s p v).batches = s.batches := rfl

theorem storeCurr_mem (s : State) (v b i : Nat) :
    (storeCurr s v).mem b i =
      if b = s.curr_vif_packet2.buf ∧ i = s.curr_vif_packet2.idx then u64 v else s.mem b i := rfl

theorem storeCurr_trace (s : State) (v : Nat) :
    (storeCurr s v).trace =
      s.trace ++ [Event.write s.curr_vif_packet2.buf s.curr_vif_packet2.idx] := rfl

theorem storeCurr_context (s : State) (v : Nat) : (storeCurr s v).context = s.context := rfl

theorem storeCurr_curr (s : State) (v : Nat) :
    (storeCurr s v).curr_vif_packet2 =
      ⟨s.curr_vif_packet2.buf, s.curr_vif_packet2.idx + 1⟩ := rfl

theorem storeCurr_batches (s : State) (v : Nat) : (storeCurr s v).batches = s.batches := rfl

theorem dma_wait_mem (s : State) (ch : Nat) : (dma_wait s ch).mem = s.mem := rfl

theorem dma_wait_trace (s : State) (ch : Nat) :
    (dma_wait s ch).trace = s.trace ++ [Event.wait ch] := rfl

theorem dma_wait_context (s : State) (ch : Nat) : (dma_wait s ch).context = s.context := rfl

theorem dma_wait_batches (s : State) (ch : Nat) : (dma_wait s ch).batches = s.batches := rfl

theorem vifSendPacket_mem (E : Env) (s : State) (a ch : Nat) :
    (vifSendPacket E s a ch).mem = s.mem := rfl

theorem vifSendPacket_trace (E : Env) (s : State) (a ch : Nat) :
    (vifSendPacket E s a ch).trace =
      s.trace ++ [Event.wait E.DMA_CHANNEL_GIF, Event.wait ch, Event.flushCache,
        Event.sendChain ch (u32 a &&& 0x0FFFFFFF)] := by
  simp [vifSendPacket, dma_wait]

theorem vifSendPacket_context (E : Env) (s : State) (a ch : Nat) :
    (vifSendPacket E s a ch).context = s.context := rfl

theorem vifSendPacket_curr (E : Env) (s : State) (a ch : Nat) :
    (vifSendPacket E s a ch).curr_vif_packet2 = s.curr_vif_packet2 := rfl

theorem vifSendPacket_batches (E : Env) (s : State) (a ch : Nat) :
    (vifSendPacket E s a ch).batches = s.batches := rfl

theorem vu_add_unpack_data_mem (E : Env) (s : State) (p : Ptr) (dest data size top b i : Nat) :
    (vu_add_unpack_data E s p dest data size top).1.mem b i =
      if b = p.buf ∧ i = p.idx + 1 then u64 (unpackWord dest size top)
      else if b = p.buf ∧ i = p.idx then u64 (E.DMA_TAG size 0 E.DMA_REF 0 data 0)
      else s.mem b i := rfl

theorem addUnpackCurr_mem (E : Env) (s : State) (dest data size top b i : Nat) :
    (addUnpackCurr E s dest data size top).mem b i =
      if b = s.curr_vif_packet2.buf ∧ i = s.curr_vif_packet2.idx + 1 then
        u64 (unpackWord dest size top)
      else if b = s.curr_vif_packet2.buf ∧ i = s.curr_vif_packet2.idx then
        u64 (E.DMA_TAG size 0 E.DMA_REF 0 data 0)
      else s.mem b i := by
  simp only [addUnpackCurr, vu_add_unpack_data, store, Ptr.succ, unpackWord]

theorem addUnpackCurr_trace (E : Env) (s : State) (dest data size top : Nat) :
    (addUnpackCurr E s dest data size top).trace =
      s.trace ++ [Event.write s.curr_vif_packet2.buf s.curr_vif_packet2.idx,
        Event.write s.curr_vif_packet2.buf (s.curr_vif_packet2.idx + 1)] := by
  simp [addUnpackCurr, vu_add_unpack_data, store, Ptr.succ]

theorem addUnpackCurr_context (E : Env) (s : State) (dest data size top : Nat) :
    (addUnpackCurr E s dest data size top).context = s.context := rfl

theorem addUnpackCurr_curr (E : Env) (s : State) (dest data size top : Nat) :
    (addUnpackCurr E s dest data size top).curr_vif_packet2 =
      ⟨s.curr_vif_packet2.buf, s.curr_vif_packet2.idx + 2⟩ := rfl

theorem addUnpackCurr_batches (E : Env) (s : State) (dest data size top : Nat) :
    (addUnpackCurr E s dest data size top).batches = s.batches := rfl

theorem flipContext_mem (s : State) : (flipContext s).mem = s.mem := rfl

theorem flipContext_trace (s : State) : (flipContext s).trace = s.trace ++ [Event.flip] := rfl

theorem flipContext_context (s : State) :
    (flipContext s).context = if s.context = 0 then 1 else 0 := rfl

theorem flipContext_curr (s : State) :
    (flipContext s).curr_vif_packet2 = s.curr_vif_packet2 := rfl

theorem flipContext_batches (s : State) : (flipContext s).batches = s.batches := rfl

theorem memsetZero_mem (n : Nat) : ∀ (s : State) (p : Ptr) (b i : Nat),
    (memsetZero s p n).mem b i =
      if b = p.buf ∧ p.idx ≤ i ∧ i < p.idx + n then 0 else s.mem b i := by
  induction n with
  | zero =>
    intro s p b i
    have h : ¬ (b = p.buf ∧ p.idx ≤ i ∧ i < p.idx + 0) := by omega
    rw [if_neg h]; rfl
  | succ n ih =>
    intro s p b i
    rw [memsetZero, ih, store_mem]
    simp only [Ptr.succ, u64]
    by_cases hb : b = p.buf
    · by_cases h1 : i = p.idx
      · subst h1; simp [hb]
      · have e1 : (p.idx + 1 ≤ i ∧ i < p.idx + 1 + n) ↔ (p.idx ≤ i ∧ i < p.idx + (n + 1)) := by
          omega
        simp [hb, h1, e1]
    · simp [hb]

theorem memsetZero_trace (n : Nat) : ∀ (s : State) (p : Ptr),
    (memsetZero s p n).trace =
      s.trace ++ (List.range n).map (fun k => Event.write p.buf (p.idx + k)) := by
  induction n with
  | zero => intro s p; simp [memsetZero]
  | succ n ih =>
    intro s p
    rw [memsetZero, ih, store_trace, List.range_succ_eq_map]
    simp [Ptr.succ, List.map_map, Function.comp_def, Nat.add_assoc, Nat.add_comm 1]

theorem memsetZero_context (n : Nat) : ∀ (s : State) (p : Ptr),
    (memsetZero s p n).context = s.context := by
  induction n with
  | zero => intro s p; rfl
  | succ n ih => intro s p; rw [memsetZero, ih, store_context]

theorem memsetZero_curr (n : Nat) : ∀ (s : State) (p : Ptr),
    (memsetZero s p n).curr_vif_packet2 = s.curr_vif_packet2 := by
  induction n with
  | zero => intro s p; rfl
  | succ n ih => intro s p; rw [memsetZero, ih, store_curr]

theorem memsetZero_batches (n : Nat) : ∀ (s : State) (p : Ptr),
    (memsetZero s p n).batches = s.batches := by
  induction n with
  | zero => intro s p; rfl
  | succ n ih => intro s p; rw [memsetZero, ih, store_batches]

/-! ## One iteration of the loop -/

theorem iter_trace (E : Env) (s : State) (t d : Int) :
    (draw_cube_iter E s t d).1.trace = s.trace ++ cycleTrace E s.context := by
  simp only [draw_cube_iter, flipContext_trace, vifSendPacket_trace, vifSendPacket_context,
    storeCurr_trace, storeCurr_curr, storeCurr_context, addUnpackCurr_trace,
    addUnpackCurr_curr, addUnpackCurr_context, memsetZero_trace, memsetZero_curr,
    memsetZero_context, dma_wait_trace, dma_wait_context, cycleTrace, Nat.reduceMul,
    Nat.reduceDiv]
  simp [List.range, List.range.loop]

theorem iter_context (E : Env) (s : State) (t d : Int) :
    (draw_cube_iter E s t d).1.context = if s.context = 0 then 1 else 0 := by
  simp only [draw_cube_iter, flipContext_context, vifSendPacket_context,
    storeCurr_context, addUnpackCurr_context, memsetZero_context, dma_wait_context]

theorem iter_curr (E : Env) (s : State) (t d : Int) :
    (draw_cube_iter E s t d).1.curr_vif_packet2 = ⟨s.context, 14⟩ := by
  simp only [draw_cube_iter, flipContext_curr, vifSendPacket_curr,
    storeCurr_curr, addUnpackCurr_curr, memsetZero_curr, dma_wait_context]

theorem iter_batches (E : Env) (s : State) (t d : Int) :
    (draw_cube_iter E s t d).1.batches =
      s.batches ++ [(d, if t < BATCH then t else BATCH)] := by
  simp only [draw_cube_iter, flipContext_batches, vifSendPacket_batches,
    storeCurr_batches, addUnpackCurr_batches, memsetZero_batches, dma_wait_batches]

theorem iter_counters (E : Env) (s : State) (t d : Int) :
    (draw_cube_iter E s t d).2 =
      (t - (if t < BATCH then t else BATCH), d + (if t < BATCH then t else BATCH)) := rfl

theorem iter_mem (E : Env) (s : State) (t d : Int) (b i : Nat) :
    (draw_cube_iter E s t d).1.mem b i =
      if b = s.context ∧ i < 14 then (packetWords E d).getD i 0 else s.mem b i := by
  simp only [draw_cube_iter, flipContext_mem, vifSendPacket_mem, storeCurr_mem, storeCurr_curr,
    addUnpackCurr_mem, addUnpackCurr_curr, memsetZero_mem, memsetZero_curr, dma_wait_mem,
    dma_wait_context, Nat.reduceAdd, Nat.reduceMul, Nat.reduceDiv, Nat.zero_le, true_and]
  by_cases hb : b = s.context
  · by_cases hi : i < 14
    · interval_cases i <;> simp [hb, packetWords]
    · have hne : ∀ k, k < 14 → ¬ (i = k) := fun k hk => by omega
      have h12 : ¬ (i < 12) := by omega
      simp [hi, hne, h12]
  · simp [hb]

/-! ## The whole loop -/

theorem numCycles_nonpos {t : Int} (h : ¬ t > 0) : numCycles t = 0 := by
  unfold numCycles; omega

theorem numCycles_step {t : Int} (h : t > 0) :
    numCycles t = numCycles (t - (if t < BATCH then t else BATCH)) + 1 := by
  unfold numCycles BATCH
  split_ifs <;> omega

theorem numCycles_bounds {N : Int} (hN : 0 ≤ N) :
    N ≤ 69 * (numCycles N : Int) ∧ 69 * (numCycles N : Int) < N + 69 := by
  unfold numCycles; omega

theorem range_succ_flatMap {α : Type} (f : Nat → List α) (k : Nat) :
    (List.range (k + 1)).flatMap f = f 0 ++ (List.range k).flatMap (fun i => f (i + 1)) := by
  rw [List.range_succ_eq_map]
  simp [List.flatMap, List.map_map, Function.comp_def]

theorem loop_spec (E : Env) : ∀ (fuel : Nat) (s : State) (t d : Int),
    t ≤ fuel →
    ∃ sf, draw_cube_loop E fuel s t d = some sf ∧
      (s.context < 2 → sf.trace = s.trace ++
        (List.range (numCycles t)).flatMap (fun i => cycleTrace E ((s.context + i) % 2)) ∧
        sf.context = (s.context + numCycles t) % 2) ∧
      sf.batches = s.batches ++
        (List.range (numCycles t)).map
          (fun (i : Nat) => (d + 69 * (i : Int), min 69 (t - 69 * (i : Int)))) := by
  intro fuel
  induction fuel with
  | zero =>
    intro s t d ht
    have h0 : ¬ t > 0 := by omega
    refine ⟨s, by simp [draw_cube_loop, h0], ?_, ?_⟩
    · intro hc
      simp [numCycles_nonpos h0]
      omega
    · simp [numCycles_nonpos h0]
  | succ fuel ih =>
    intro s t d ht
    by_cases h0 : t > 0
    · have hstep := numCycles_step h0
      have hcnt : (1 : Int) ≤ (if t < BATCH then t else BATCH) := by
        unfold BATCH; split_ifs <;> omega
      obtain ⟨sf, h1, h2, h3⟩ := ih (draw_cube_iter E s t d).1
        (t - (if t < BATCH then t else BATCH)) (d + (if t < BATCH then t else BATCH))
        (by push_cast at ht; omega)
      refine ⟨sf, ?_, ?_, ?_⟩
      · simp only [draw_cube_loop, h0, if_true, iter_counters]
        exact h1
      · intro hc
        have hc1 : (draw_cube_iter E s t d).1.context < 2 := by
          rw [iter_context]; split_ifs <;> omega
        obtain ⟨h2, h4⟩ := h2 hc1
        constructor
        · rw [h2, iter_trace, hstep, range_succ_flatMap, iter_context, List.append_assoc]
          congr 2
          · simp [Nat.mod_eq_of_lt hc]
          · congr 1
            funext i
            congr 1
            split_ifs <;> omega
        · rw [h4, iter_context, hstep]
          split_ifs <;> omega
      · rw [h3, iter_batches, hstep, List.range_succ_eq_map, List.append_assoc]
        congr 1
        simp only [List.map_cons, List.map_map, List.singleton_append]
        congr 1
        · simp only [BATCH]
          congr 1
          · simp
          · split_ifs <;> omega
        · apply List.map_congr_left
          intro i hi
          have hi2 := List.mem_range.mp hi
          have hge : ¬ t < BATCH := by
            intro hlt
            rw [if_pos hlt] at hi2
            simp [numCycles] at hi2
          have hge2 : ¬ t < 69 := hge
          simp only [BATCH, if_neg hge2, Function.comp, Nat.succ_eq_add_one]
          push_cast
          congr 1
          · omega
          · omega
    · refine ⟨s, by simp [draw_cube_loop, h0], ?_, ?_⟩
      · intro hc
        simp [numCycles_nonpos h0]
        omega
      · simp [numCycles_nonpos h0]

theorem draw_cube_spec (E : Env) (c0 : Nat) (mem : Nat → Nat → Nat) (N : Int) :
    ∃ sf, draw_cube E N (State.init c0 mem) = some sf ∧
      (c0 < 2 → sf.trace =
        (List.range (numCycles N)).flatMap (fun i => cycleTrace E ((c0 + i) % 2)) ∧
        sf.context = (c0 + numCycles N) % 2) ∧
      sf.batches = (List.range (numCycles N)).map (batchAt N) := by
  obtain ⟨sf, h1, h2, h3⟩ := loop_spec E N.toNat (State.init c0 mem) N 0 (by omega)
  refine ⟨sf, h1, ?_, ?_⟩
  · intro hc
    obtain ⟨h2, h4⟩ := h2 hc
    exact ⟨by rw [h2]; simp [State.init], h4⟩
  · rw [h3]
    simp [State.init, batchAt]

/-! ## Bit fields -/

theorem or_mul_pow (k a b : Nat) (h : a < 2 ^ k) : a ||| b * 2 ^ k = a + b * 2 ^ k := by
  rw [Nat.or_comm, Nat.mul_comm, ← Nat.mul_add_lt_is_or h, Nat.add_comm]

theorem VIF_CODE_lt (imm num cmd irq : Nat) : VIF_CODE imm num cmd irq < 2 ^ 32 := by
  unfold VIF_CODE u32
  have h : ∀ x : Nat, x % 2 ^ 32 < 2 ^ 32 := fun x => Nat.mod_lt _ (by norm_num)
  exact Nat.or_lt_two_pow (Nat.or_lt_two_pow (Nat.or_lt_two_pow (h _) (h _)) (h _)) (h _)

theorem VIF_CODE_eq_sum (imm num cmd irq : Nat) (h1 : imm < 2 ^ 16) (h2 : num < 2 ^ 8)
    (h3 : cmd < 2 ^ 7) (h4 : irq < 2) :
    VIF_CODE imm num cmd irq = imm + num * 2 ^ 16 + cmd * 2 ^ 24 + irq * 2 ^ 31 := by
  unfold VIF_CODE u32
  simp only [Nat.shiftLeft_eq]
  rw [Nat.mod_eq_of_lt (show imm < 2 ^ 32 by omega), Nat.mod_eq_of_lt (show num < 2 ^ 32 by omega),
    Nat.mod_eq_of_lt (show cmd < 2 ^ 32 by omega), Nat.mod_eq_of_lt (show irq < 2 ^ 32 by omega),
    Nat.mod_eq_of_lt (show num * 2 ^ 16 < 2 ^ 32 by omega),
    Nat.mod_eq_of_lt (show cmd * 2 ^ 24 < 2 ^ 32 by omega),
    Nat.mod_eq_of_lt (show irq * 2 ^ 31 < 2 ^ 32 by omega),
    or_mul_pow 16 _ _ h1, or_mul_pow 24 _ _ (by omega), or_mul_pow 31 _ _ (by omega)]

theorem word_halves (a c : Nat) (ha : a < 2 ^ 32) (hc : c < 2 ^ 32) :
    u64 (a ||| u64 (c <<< 32)) = a + c * 2 ^ 32 := by
  unfold u64
  rw [Nat.shiftLeft_eq, Nat.mod_eq_of_lt (show c * 2 ^ 32 < 2 ^ 64 by omega),
    or_mul_pow 32 _ _ ha, Nat.mod_eq_of_lt (by omega)]

theorem unpack_immediate (dest top : Nat) (hd : dest < 2 ^ 14) (ht : top < 2) :
    dest ||| u32 (1 <<< 14) ||| u32 (top <<< 15) = dest + 2 ^ 14 + top * 2 ^ 15 := by
  unfold u32
  simp only [Nat.shiftLeft_eq]
  rw [Nat.mod_eq_of_lt (show 1 * 2 ^ 14 < 2 ^ 32 by omega),
    Nat.mod_eq_of_lt (show top * 2 ^ 15 < 2 ^ 32 by omega),
    or_mul_pow 14 _ _ hd, or_mul_pow 15 _ _ (by omega)]
  omega

theorem unpack_immediate_plain (dest top : Nat) (hd : dest < 2 ^ 14) :
    dest ||| 1 <<< 14 ||| top <<< 15 = dest + 2 ^ 14 + top * 2 ^ 15 := by
  simp only [Nat.shiftLeft_eq]
  rw [or_mul_pow 14 _ _ hd, or_mul_pow 15 _ _ (by omega)]
  omega

theorem unpackWord_lower (dest size top : Nat) :
    lowerHalf (u64 (unpackWord dest size top)) = 0x01000101 := by
  unfold unpackWord
  rw [word_halves _ _ (VIF_CODE_lt _ _ _ _) (VIF_CODE_lt _ _ _ _)]
  have h := VIF_CODE_eq_sum (0x0101 ||| (0 <<< 8)) 0 VIF_STCYCL 0
    (by decide) (by decide) (by decide) (by decide)
  rw [h]
  unfold lowerHalf
  simp [VIF_STCYCL]

theorem unpackWord_upper (dest size top : Nat) :
    upperHalf (u64 (unpackWord dest size top)) =
      VIF_CODE (dest ||| u32 (1 <<< 14) ||| u32 (top <<< 15))
        (if size = 256 then 0 else size) (UNPACK_V4_32 ||| u32 (0 <<< 4) ||| 0x60) 0 := by
  unfold unpackWord
  rw [word_halves _ _ (VIF_CODE_lt _ _ _ _) (VIF_CODE_lt _ _ _ _)]
  have h := VIF_CODE_lt (0x0101 ||| (0 <<< 8)) 0 VIF_STCYCL 0
  unfold upperHalf
  omega

theorem unpackCode_fields (dest size top : Nat) (hd : dest < 2 ^ 14) (hs : size ≤ 256)
    (ht : top < 2) :
    VIF_CODE (dest ||| u32 (1 <<< 14) ||| u32 (top <<< 15))
        (if size = 256 then 0 else size) (UNPACK_V4_32 ||| u32 (0 <<< 4) ||| 0x60) 0 =
      dest + 2 ^ 14 + top * 2 ^ 15 + (if size = 256 then 0 else size) * 2 ^ 16 +
        0x6C * 2 ^ 24 := by
  rw [unpack_immediate dest top hd ht]
  have hc : (UNPACK_V4_32 ||| u32 (0 <<< 4) ||| 0x60) = 0x6C := by decide
  rw [hc, VIF_CODE_eq_sum _ _ _ _ (by omega) (by split_ifs <;> omega) (by norm_num) (by norm_num)]
  omega

/-! ## Batches -/

theorem closed_get (N : Int) (k i : Nat) (p : Int × Int)
    (h : ((List.range k).map (batchAt N))[i]? = some p) : i < k ∧ p = batchAt N i := by
  rw [List.getElem?_map] at h
  by_cases hi : i < k
  · rw [List.getElem?_range hi] at h
    simp at h
    exact ⟨hi, h.symm⟩
  · rw [List.getElem?_eq_none (by simpa using hi)] at h
    simp at h

theorem closed_get_lt (N : Int) (k i : Nat) (hi : i < k) :
    ((List.range k).map (batchAt N))[i]? = some (batchAt N i) := by
  rw [List.getElem?_map, List.getElem?_range hi]; rfl

theorem sum_counts (N : Int) (hN : 0 ≤ N) : ∀ k : Nat, 69 * (k : Int) < N + 69 →
    (((List.range k).map (batchAt N)).map Prod.snd).sum = min N (69 * (k : Int)) := by
  intro k
  induction k with
  | zero => intro h; simp; omega
  | succ k ih =>
    intro h
    have ih2 := ih (by push_cast at h; omega)
    rw [List.range_succ, List.map_append, List.map_append, List.sum_append, ih2]
    simp only [List.map_cons, List.map_nil, List.sum_cons, List.sum_nil, batchAt]
    push_cast at h ⊢
    omega

theorem closed_isBatchPartition (N : Int) (hN : 0 ≤ N) :
    IsBatchPartition N ((List.range (numCycles N)).map (batchAt N)) := by
  obtain ⟨hk1, hk2⟩ := numCycles_bounds hN
  refine ⟨?_, ?_, ?_, ?_, ?_, ?_⟩
  · intro p hp
    rw [List.head?_eq_getElem?] at hp
    obtain ⟨_, rfl⟩ := closed_get _ _ _ _ hp
    simp [batchAt]
  · intro i p q hp hq
    obtain ⟨_, rfl⟩ := closed_get _ _ _ _ hp
    obtain ⟨h2, rfl⟩ := closed_get _ _ _ _ hq
    simp only [batchAt]
    omega
  · intro p hp
    obtain ⟨i, hi, rfl⟩ := List.mem_map.mp hp
    have hi2 := List.mem_range.mp hi
    simp only [batchAt, BATCH]
    refine ⟨trivial, ?_⟩
    omega
  · rw [sum_counts N hN _ hk2]; omega
  · intro p hp
    rw [List.getLast?_eq_getElem?] at hp
    obtain ⟨h2, rfl⟩ := closed_get _ _ _ _ hp
    simp only [List.length_map, List.length_range] at h2 ⊢
    simp only [batchAt, BATCH]
    have : ((numCycles N - 1 : Nat) : Int) = (numCycles N : Int) - 1 := by omega
    rw [this]
    split_ifs <;> omega
  · intro j hj0 hjN
    refine ⟨(j / 69).toNat, ⟨batchAt N (j / 69).toNat, closed_get_lt _ _ _ (by omega), ?_, ?_⟩, ?_⟩
    · simp only [batchAt]; omega
    · simp only [batchAt]; omega
    · rintro i ⟨p, hp, h1, h2⟩
      obtain ⟨h3, rfl⟩ := closed_get _ _ _ _ hp
      simp only [batchAt] at h1 h2
      omega

/-! ## Order of operations -/

theorem countP_flatMap_range (p : Event → Bool) (f : Nat → List Event)
    (h : ∀ i, (f i).countP p = 1) : ∀ k, ((List.range k).flatMap f).countP p = k := by
  intro k
  induction k with
  | zero => simp
  | succ k ih =>
    rw [List.range_succ, List.flatMap_append, List.countP_append, ih]
    simp [h]

theorem cycleTrace_countP_send (E : Env) (c : Nat) :
    (cycleTrace E c).countP Event.isSend = 1 := by
  simp [cycleTrace, List.range, List.range.loop, List.countP_cons, Event.isSend]

theorem cycleTrace_count_flip (E : Env) (c : Nat) :
    (cycleTrace E c).countP (· == Event.flip) = 1 := by
  simp [cycleTrace, List.range, List.range.loop, List.countP_cons]

theorem cycleTrace_write_mem (E : Env) (c b i : Nat) :
    Event.write b i ∈ cycleTrace E c ↔ b = c ∧ i < 14 := by
  simp only [cycleTrace, List.mem_append, List.mem_map, List.mem_range, List.mem_cons,
    List.mem_singleton, Event.write.injEq, reduceCtorEq, false_or, or_false, List.not_mem_nil,
    List.mem_nil_iff]
  constructor
  · rintro (⟨a, h1, h2, h3⟩ | ⟨a, h1, h2, h3⟩) <;> exact ⟨h2.symm, by omega⟩
  · rintro ⟨h1, h2⟩
    exact Or.inr ⟨i, h2, h1.symm, rfl⟩

theorem drainedCheck_cycle (E : Env) (c : Nat) (d : Bool) (R : List Event) :
    drainedCheck E.DMA_CHANNEL_VIF1 d (cycleTrace E c ++ R) =
      drainedCheck E.DMA_CHANNEL_VIF1 false R := by
  simp [cycleTrace, List.range, List.range.loop, drainedCheck]

theorem drainedCheck_cycles (E : Env) : ∀ (k : Nat) (g : Nat → Nat) (d : Bool),
    drainedCheck E.DMA_CHANNEL_VIF1 d ((List.range k).flatMap (fun i => cycleTrace E (g i))) =
      true := by
  intro k
  induction k with
  | zero => intro g d; simp [drainedCheck]
  | succ k ih =>
    intro g d
    rw [range_succ_flatMap, drainedCheck_cycle]
    exact ih (fun i => g (i + 1)) false

theorem drainedCheck_sound (vif1 : Nat) : ∀ (T : List Event) (d : Bool),
    drainedCheck vif1 d T = true →
    ∀ i b j, T[i]? = some (Event.write b j) →
      (d = true ∧ ∀ m : Nat, m < i → ∀ ch a, T[m]? ≠ some (Event.sendChain ch a)) ∨
      (∃ w : Nat, w < i ∧ T[w]? = some (Event.wait vif1) ∧
        ∀ m : Nat, w < m → m < i → ∀ ch a, T[m]? ≠ some (Event.sendChain ch a)) := by
  intro T
  induction T with
  | nil => intro d _ i b j h; simp at h
  | cons e T ih =>
    intro d hchk i b j hi
    cases i with
    | zero =>
      simp only [List.getElem?_cons_zero, Option.some.injEq] at hi
      subst hi
      simp only [drainedCheck, Bool.and_eq_true] at hchk
      exact Or.inl ⟨hchk.1, fun m hm => absurd hm (Nat.not_lt_zero m)⟩
    | succ i =>
      rw [List.getElem?_cons_succ] at hi
      have shift : ∀ d2, drainedCheck vif1 d2 T = true →
          (d2 = true → (d = true ∧ ∀ ch a, e ≠ Event.sendChain ch a) ∨ e = Event.wait vif1) →
          (d = true ∧ ∀ m : Nat, m < i + 1 → ∀ ch a,
            (e :: T)[m]? ≠ some (Event.sendChain ch a)) ∨
          (∃ w : Nat, w < i + 1 ∧ (e :: T)[w]? = some (Event.wait vif1) ∧
            ∀ m : Nat, w < m → m < i + 1 → ∀ ch a,
              (e :: T)[m]? ≠ some (Event.sendChain ch a)) := by
        intro d2 hd2 hcase
        rcases ih d2 hd2 i b j hi with ⟨hdt, hno⟩ | ⟨w, hw, hwait, hno⟩
        · rcases hcase hdt with ⟨hd, hne⟩ | he
          · refine Or.inl ⟨hd, ?_⟩
            intro m hm ch a
            cases m with
            | zero =>
              simp only [List.getElem?_cons_zero, ne_eq, Option.some.injEq]
              exact hne ch a
            | succ m =>
              rw [List.getElem?_cons_succ]
              exact hno m (by omega) ch a
          · refine Or.inr ⟨0, by omega, by simp [he], ?_⟩
            intro m hm1 hm2 ch a
            cases m with
            | zero => omega
            | succ m =>
              rw [List.getElem?_cons_succ]
              exact hno m (by omega) ch a
        · refine Or.inr ⟨w + 1, by omega, by rw [List.getElem?_cons_succ]; exact hwait, ?_⟩
          intro m hm1 hm2 ch a
          cases m with
          | zero => omega
          | succ m =>
            rw [List.getElem?_cons_succ]
            exact hno m (by omega) (by omega) ch a
      cases e with
      | wait ch =>
        simp only [drainedCheck] at hchk
        apply shift _ hchk
        intro hd2
        simp only [Bool.or_eq_true, beq_iff_eq] at hd2
        rcases hd2 with hd | hch
        · exact Or.inl ⟨hd, fun _ _ h => by cases h⟩
        · exact Or.inr (by rw [hch])
      | flushCache =>
        simp only [drainedCheck] at hchk
        exact shift _ hchk (fun hd => Or.inl ⟨hd, fun _ _ h => by cases h⟩)
      | sendChain ch a =>
        simp only [drainedCheck] at hchk
        exact shift _ hchk (fun hd => by cases hd)
      | write b2 j2 =>
        simp only [drainedCheck, Bool.and_eq_true] at hchk
        exact shift _ hchk.2 (fun hd => Or.inl ⟨hd, fun _ _ h => by cases h⟩)
      | flip =>
        simp only [drainedCheck] at hchk
        exact shift _ hchk (fun hd => Or.inl ⟨hd, fun _ _ h => by cases h⟩)

/-! ## The claims -/

/-- Claim C1: for every face count `N ≥ 0`, `draw_cube` returns, and the pairs
`(verticesDrawn, count)` taken by its loop form a partition of `[0, N)` into
batches of at most 69: first offset 0, each offset the previous offset plus
the previous count, each count `min 69 (N - offset)` and at least 1, counts
adding up to `N`, last count `N mod 69` (or 69 when that is 0), every index in
exactly one batch.  For `N = 150` the counts are `[69, 69, 12]`. -/
theorem draw_cube_batches_partition (E : Env) (c0 : Nat) (mem : Nat → Nat → Nat) (N : Int)
    (hN : 0 ≤ N) :
    ∃ sf, draw_cube E N (State.init c0 mem) = some sf ∧
      IsBatchPartition N sf.batches ∧
      (N = 150 → sf.batches.map Prod.snd = [69, 69, 12]) := by
  obtain ⟨sf, h1, _, h3⟩ := draw_cube_spec E c0 mem N
  refine ⟨sf, h1, ?_, ?_⟩
  · rw [h3]
    exact closed_isBatchPartition N hN
  · intro h
    subst h
    rw [h3]
    decide

/-- Claim C1 on 150 face vertices. -/
theorem draw_cube_batches_partition_witness :
    0 ≤ (150 : Int) ∧
      ∃ sf, draw_cube sampleEnv 150 (State.init 0 zeroMem) = some sf ∧
        IsBatchPartition 150 sf.batches ∧
        ((150 : Int) = 150 → sf.batches.map Prod.snd = [69, 69, 12]) :=
  ⟨by decide, draw_cube_batches_partition sampleEnv 0 zeroMem 150 (by decide)⟩

/-- Claim C2: for `1 ≤ t_size ≤ 256`, `t_dest_address < 2^14` and `t_use_top`
0 or 1, the NUM field of the UNPACK code written by `vu_add_unpack_data` is 0
when `t_size = 256` and `t_size` otherwise; decoded with zero meaning 256 it
gives back `t_size`, never more than 256; the immediate is
`t_dest_address | 1 << 14 | t_use_top << 15`, the command is `0x6C` and the
interrupt bit is 0, whatever `t_size`. -/
theorem vu_add_unpack_data_num_field (E : Env) (s : State) (p : Ptr)
    (t_dest_address t_data t_size t_use_top : Nat)
    (h1 : 1 ≤ t_size) (h2 : t_size ≤ 256) (hd : t_dest_address < 2 ^ 14) (ht : t_use_top < 2) :
    vifNum (unpackCodeAt E s p t_dest_address t_data t_size t_use_top) =
        (if t_size = 256 then 0 else t_size) ∧
      decodeNum (vifNum (unpackCodeAt E s p t_dest_address t_data t_size t_use_top)) = t_size ∧
      decodeNum (vifNum (unpackCodeAt E s p t_dest_address t_data t_size t_use_top)) ≤ 256 ∧
      vifImmediate (unpackCodeAt E s p t_dest_address t_data t_size t_use_top) =
        (t_dest_address ||| 1 <<< 14 ||| t_use_top <<< 15) ∧
      vifCmd (unpackCodeAt E s p t_dest_address t_data t_size t_use_top) = 0x6C ∧
      vifIrq (unpackCodeAt E s p t_dest_address t_data t_size t_use_top) = 0 := by
  have hm : unpackCodeAt E s p t_dest_address t_data t_size t_use_top =
      upperHalf (u64 (unpackWord t_dest_address t_size t_use_top)) := by
    unfold unpackCodeAt
    rw [vu_add_unpack_data_mem]
    simp
  rw [hm, unpackWord_upper, unpackCode_fields _ _ _ hd h2 ht, unpack_immediate_plain _ _ hd]
  unfold vifNum vifImmediate vifCmd vifIrq decodeNum
  split_ifs <;> omega

/-- Claim C2 at the full size 256, target address 0, active-buffer base used. -/
theorem vu_add_unpack_data_num_field_witness :
    (1 ≤ 256 ∧ 256 ≤ 256 ∧ 0 < 2 ^ 14 ∧ 1 < 2) ∧
      (vifNum (unpackCodeAt sampleEnv (State.init 0 zeroMem) ⟨0, 2⟩ 0 0x180000 256 1) =
          (if 256 = 256 then 0 else 256) ∧
        decodeNum (vifNum (unpackCodeAt sampleEnv (State.init 0 zeroMem) ⟨0, 2⟩ 0 0x180000 256 1))
          = 256 ∧
        decodeNum (vifNum (unpackCodeAt sampleEnv (State.init 0 zeroMem) ⟨0, 2⟩ 0 0x180000 256 1))
          ≤ 256 ∧
        vifImmediate (unpackCodeAt sampleEnv (State.init 0 zeroMem) ⟨0, 2⟩ 0 0x180000 256 1) =
          (0 ||| 1 <<< 14 ||| 1 <<< 15) ∧
        vifCmd (unpackCodeAt sampleEnv (State.init 0 zeroMem) ⟨0, 2⟩ 0 0x180000 256 1) = 0x6C ∧
        vifIrq (unpackCodeAt sampleEnv (State.init 0 zeroMem) ⟨0, 2⟩ 0 0x180000 256 1) = 0) :=
  ⟨by decide, vu_add_unpack_data_num_field sampleEnv (State.init 0 zeroMem) ⟨0, 2⟩
    0 0x180000 256 1 (by decide) (by decide) (by decide) (by decide)⟩

/-- Claim C3: for every face count and every initial context in {0, 1},
`draw_cube` returns, and in its trace every store to a packet buffer comes
after a wait on the VIF1 channel with no transfer issued between that wait and
the store. -/
theorem draw_cube_wait_before_write (E : Env) (c0 : Nat) (mem : Nat → Nat → Nat) (N : Int)
    (hc : c0 < 2) :
    ∃ sf, draw_cube E N (State.init c0 mem) = some sf ∧
      WaitBeforeWrite E.DMA_CHANNEL_VIF1 sf.trace := by
  obtain ⟨sf, h1, h2, _⟩ := draw_cube_spec E c0 mem N
  refine ⟨sf, h1, ?_⟩
  obtain ⟨h3, _⟩ := h2 hc
  unfold WaitBeforeWrite
  intro i b j hi
  have hchk := drainedCheck_cycles E (numCycles N) (fun i => (c0 + i) % 2) false
  rw [← h3] at hchk
  rcases drainedCheck_sound _ _ _ hchk i b j hi with ⟨hd, _⟩ | h
  · cases hd
  · exact h

/-- Claim C3 on 150 face vertices, starting in context 0. -/
theorem draw_cube_wait_before_write_witness :
    0 < 2 ∧ ∃ sf, draw_cube sampleEnv 150 (State.init 0 zeroMem) = some sf ∧
      WaitBeforeWrite sampleEnv.DMA_CHANNEL_VIF1 sf.trace :=
  ⟨by decide, draw_cube_wait_before_write sampleEnv 0 zeroMem 150 (by decide)⟩

/-- Claim C4: for every face count `N ≥ 0` and initial context `c0` in {0, 1},
`draw_cube` returns after `k = ceil(N / 69)` batch cycles; its trace is the
concatenation, for `i = 0, ..., k - 1`, of the cycle on buffer `(c0 + i) mod 2`
(build in that buffer, one send of that same buffer, then one flip); so there
are `k` sends and `k` flips, the context ends at `(c0 + k) mod 2`, consecutive
cycles use different buffers; `N = 150` gives `k = 3`, and `N = 0` leaves the
state as it was (no store, no send, no flip). -/
theorem draw_cube_cycles (E : Env) (c0 : Nat) (mem : Nat → Nat → Nat) (N : Int)
    (hc : c0 < 2) (hN : 0 ≤ N) :
    ∃ sf, draw_cube E N (State.init c0 mem) = some sf ∧
      (N ≤ 69 * (numCycles N : Int) ∧ 69 * (numCycles N : Int) < N + 69) ∧
      sf.trace = (List.range (numCycles N)).flatMap (fun i => cycleTrace E ((c0 + i) % 2)) ∧
      sf.trace.countP Event.isSend = numCycles N ∧
      sf.trace.count Event.flip = numCycles N ∧
      sf.context = (c0 + numCycles N) % 2 ∧
      (∀ i, (c0 + (i + 1)) % 2 ≠ (c0 + i) % 2) ∧
      (N = 150 → numCycles N = 3) ∧
      (N = 0 → sf = State.init c0 mem) := by
  obtain ⟨sf, h1, h2, _⟩ := draw_cube_spec E c0 mem N
  obtain ⟨h3, h4⟩ := h2 hc
  refine ⟨sf, h1, numCycles_bounds hN, h3, ?_, ?_, h4, fun i => by omega, ?_, ?_⟩
  · rw [h3]; exact countP_flatMap_range _ _ (fun i => cycleTrace_countP_send E _) _
  · rw [h3]; exact countP_flatMap_range _ _ (fun i => cycleTrace_count_flip E _) _
  · intro h; subst h; decide
  · intro h
    subst h
    have h0 : draw_cube E 0 (State.init c0 mem) = some (State.init c0 mem) := rfl
    exact Option.some.inj (h1.symm.trans h0)

/-- Claim C4 on 150 face vertices, starting in context 0. -/
theorem draw_cube_cycles_witness :
    (0 < 2 ∧ 0 ≤ (150 : Int)) ∧
      ∃ sf, draw_cube sampleEnv 150 (State.init 0 zeroMem) = some sf ∧
        ((150 : Int) ≤ 69 * (numCycles 150 : Int) ∧ 69 * (numCycles 150 : Int) < 150 + 69) ∧
        sf.trace =
          (List.range (numCycles 150)).flatMap (fun i => cycleTrace sampleEnv ((0 + i) % 2)) ∧
        sf.trace.countP Event.isSend = numCycles 150 ∧
        sf.trace.count Event.flip = numCycles 150 ∧
        sf.context = (0 + numCycles 150) % 2 ∧
        (∀ i, (0 + (i + 1)) % 2 ≠ (0 + i) % 2) ∧
        ((150 : Int) = 150 → numCycles 150 = 3) ∧
        ((150 : Int) = 0 → sf = State.init 0 zeroMem) :=
  ⟨by decide, draw_cube_cycles sampleEnv 0 zeroMem 150 (by decide) (by decide)⟩

/-- Claim C5: for every packet address and every channel, `vifSendPacket`
performs exactly four operations, in this order: wait on the GIF channel, wait
on the given channel, flush the data cache, issue the chain transfer on the
given channel with the address `packet & 0x0FFFFFFF`, which is the low 28 bits
of `packet`; the transfer is the last operation, and neither the buffers nor
the context change. -/
theorem vifSendPacket_operations (E : Env) (s : State) (packet vif_channel : Nat) :
    (vifSendPacket E s packet vif_channel).trace =
        s.trace ++ [Event.wait E.DMA_CHANNEL_GIF, Event.wait vif_channel, Event.flushCache,
          Event.sendChain vif_channel (u32 packet &&& 0x0FFFFFFF)] ∧
      u32 packet &&& 0x0FFFFFFF = packet % 2 ^ 28 ∧
      (vifSendPacket E s packet vif_channel).mem = s.mem ∧
      (vifSendPacket E s packet vif_channel).context = s.context := by
  refine ⟨vifSendPacket_trace E s packet vif_channel, ?_, rfl, rfl⟩
  have h := Nat.and_pow_two_sub_one_eq_mod (u32 packet) 28
  norm_num at h
  rw [h]
  unfold u32
  omega

/-- Claim C6: for every buffer, cursor `p` and arguments, `vu_add_unpack_data`
returns the cursor `p + 2` and stores exactly two words: at `p` the tag
`DMA_TAG(t_size, 0, DMA_REF, 0, t_data, 0)`, at `p + 1` the word whose low half
is the STCYCL code `0x01000101` and whose high half is the UNPACK code; every
other word of every buffer is unchanged, and so is the context. -/
theorem vu_add_unpack_data_frame (E : Env) (s : State) (p : Ptr)
    (t_dest_address t_data t_size t_use_top : Nat) :
    (vu_add_unpack_data E s p t_dest_address t_data t_size t_use_top).2 = ⟨p.buf, p.idx + 2⟩ ∧
      (vu_add_unpack_data E s p t_dest_address t_data t_size t_use_top).1.mem p.buf p.idx =
        u64 (E.DMA_TAG t_size 0 E.DMA_REF 0 t_data 0) ∧
      lowerHalf ((vu_add_unpack_data E s p t_dest_address t_data t_size t_use_top).1.mem
        p.buf (p.idx + 1)) = 0x01000101 ∧
      upperHalf ((vu_add_unpack_data E s p t_dest_address t_data t_size t_use_top).1.mem
        p.buf (p.idx + 1)) =
        VIF_CODE (t_dest_address ||| u32 (1 <<< 14) ||| u32 (t_use_top <<< 15))
          (if t_size = 256 then 0 else t_size) (UNPACK_V4_32 ||| u32 (0 <<< 4) ||| 0x60) 0 ∧
      (∀ b i, ¬ (b = p.buf ∧ (i = p.idx ∨ i = p.idx + 1)) →
        (vu_add_unpack_data E s p t_dest_address t_data t_size t_use_top).1.mem b i =
          s.mem b i) ∧
      (vu_add_unpack_data E s p t_dest_address t_data t_size t_use_top).1.trace =
        s.trace ++ [Event.write p.buf p.idx, Event.write p.buf (p.idx + 1)] ∧
      (vu_add_unpack_data E s p t_dest_address t_data t_size t_use_top).1.context =
        s.context := by
  refine ⟨rfl, ?_, ?_, ?_, ?_, ?_, rfl⟩
  · rw [vu_add_unpack_data_mem]; simp
  · rw [vu_add_unpack_data_mem]; simp [unpackWord_lower]
  · rw [vu_add_unpack_data_mem]; simp [unpackWord_upper]
  · intro b i h
    rw [vu_add_unpack_data_mem]
    have h1 : ¬ (b = p.buf ∧ i = p.idx + 1) := fun h2 => h ⟨h2.1, Or.inr h2.2⟩
    have h2 : ¬ (b = p.buf ∧ i = p.idx) := fun h2 => h ⟨h2.1, Or.inl h2.2⟩
    rw [if_neg h1, if_neg h2]
  · simp [vu_add_unpack_data, store, Ptr.succ]

/-- Counterexample to claim C7 as stated: after `draw_cube` on 150 face
vertices, buffer 0 holds at word 2 the matrix unpack command with quadword
count 8, and the sixteen words after the command are not the payload (here a
source whose words are all zero).  Whatever the payload, the claim would force
the low half of its second word to be the STCYCL code of the next command,
which is what word 5 of the buffer holds.  For the vertex unpack at word 6,
with 69 quadwords, the claimed words end at index 145, outside the 18 words of
the buffer. -/
theorem draw_cube_payload_counterexample :
    ∃ sf, draw_cube sampleEnv 150 (State.init 0 zeroMem) = some sf ∧
      sf.mem 0 2 = tagLayout 8 0 3 0 0x180000 0 ∧
      ¬ PayloadFollows (sf.mem 0) 2 8 (fun _ => 0) ∧
      (∀ payload, PayloadFollows (sf.mem 0) 2 8 payload →
        lowerHalf (payload 1) = 0x01000101) ∧
      vifCreatePacket 9 / 8 = 18 ∧ 18 ≤ 6 + 2 + 2 * 69 - 1 :=
  ⟨_, rfl, by decide, fun h => absurd (h 1 (by decide)) (by decide),
    fun _ h => (h 1 (by decide)) ▸ (by decide), by decide, by decide⟩

/-- Claim C7, amended: in every batch packet built by `draw_cube` the payload is
carried by reference and is not stored in the packet buffer.  The packet is the
fourteen words of `packetWords`: each unpack command is two words, the tag
`DMA_TAG(n, 0, DMA_REF, 0, source, 0)` and the buffer-partition instruction,
and the two words after it are the next command of the packet; no other word
of a buffer is stored to. -/
theorem draw_cube_iter_packet_layout (E : Env) (s : State) (t d : Int) :
    (List.range 14).map ((draw_cube_iter E s t d).1.mem s.context) = packetWords E d ∧
      (∀ b i, ¬ (b = s.context ∧ i < 14) → (draw_cube_iter E s t d).1.mem b i = s.mem b i) := by
  constructor
  · simp [List.range, List.range.loop, iter_mem, packetWords]
  · intro b i h
    rw [iter_mem, if_neg h]

/-- Claim C8, on the code: in every batch packet the second command (words 2
and 3) is an unpack whose source is `local_screen`, whose target address is 0
with the use-active-buffer-base bit clear, but whose quadword count is 8, both
in the tag and in the NUM field, while one 4x4 matrix of 32-bit floats is 4
quadwords. -/
theorem draw_cube_iter_matrix_unpack (E : Env) (s : State) (t d : Int) :
    (draw_cube_iter E s t d).1.mem s.context 2 =
        u64 (E.DMA_TAG 8 0 E.DMA_REF 0 E.local_screen 0) ∧
      vifNum (upperHalf ((draw_cube_iter E s t d).1.mem s.context 3)) = 8 ∧
      vifImmediate (upperHalf ((draw_cube_iter E s t d).1.mem s.context 3)) = 0 ||| 1 <<< 14 ∧
      vifCmd (upperHalf ((draw_cube_iter E s t d).1.mem s.context 3)) = 0x6C ∧
      matrixQuadwords = 4 ∧ matrixQuadwords < 8 := by
  have h3 : (draw_cube_iter E s t d).1.mem s.context 3 = u64 (unpackWord 0 8 0) := by
    rw [iter_mem]; simp [packetWords]
  refine ⟨?_, ?_, ?_, ?_, by decide, by decide⟩
  · rw [iter_mem]; simp [packetWords]
  · rw [h3]; decide
  · rw [h3]; decide
  · rw [h3]; decide

/-- Claim C9, on the code: in every iteration the tags of the vertex and
texture-coordinate unpack commands (words 6 and 8) carry the quadword count 69,
whatever is left to draw; on 150 face vertices the loop takes the batches
`(0, 69), (69, 69), (138, 12)`, and the packet of the last one, left in buffer
0, names 69 quadwords from element 138 of each stream, past the 150 elements. -/
theorem draw_cube_last_batch_over_read :
    (∀ (E : Env) (s : State) (t d : Int),
      (draw_cube_iter E s t d).1.mem s.context 6 =
          u64 (E.DMA_TAG 69 0 E.DMA_REF 0 (toU32 (E.c_verts + 16 * d)) 0) ∧
        (draw_cube_iter E s t d).1.mem s.context 8 =
          u64 (E.DMA_TAG 69 0 E.DMA_REF 0 (toU32 (E.c_sts + 16 * d)) 0)) ∧
      ∃ sf, draw_cube sampleEnv 150 (State.init 0 zeroMem) = some sf ∧
        sf.batches = [(0, 69), (69, 69), (138, 12)] ∧
        sf.mem 0 6 = tagLayout 69 0 3 0 (0x1a0000 + 16 * 138) 0 ∧
        sf.mem 0 8 = tagLayout 69 0 3 0 (0x1b0000 + 16 * 138) 0 ∧
        vifNum (upperHalf (sf.mem 0 7)) = 69 ∧
        vifNum (upperHalf (sf.mem 0 9)) = 69 ∧
        150 < 138 + 69 := by
  refine ⟨?_, _, rfl, by decide, by decide, by decide, by decide, by decide, by decide⟩
  intro E s t d
  constructor
  · rw [iter_mem]; simp [packetWords, toU32_BATCH]
  · rw [iter_mem]; simp [packetWords, toU32_BATCH]

/-- Claim C10: in every batch cycle, whatever the counters and the size of
`zbyszek_packet`, the stores go to the words 0 to 13 of `vif_packets2[context]`
and to nothing else, the cursor ends at word 14, the last command is the
`DMA_END` tag followed by a zero word, the 112 bytes fit in the 144 bytes of
`vifCreatePacket(9)`, and the fourteen words do not depend on what the buffers
held before, although `memset` clears only the words 0 to 11. -/
theorem draw_cube_iter_packet_extent (E : Env) (s : State) (t d : Int) :
    (draw_cube_iter E s t d).1.curr_vif_packet2 = ⟨s.context, 14⟩ ∧
      (draw_cube_iter E s t d).1.trace = s.trace ++ cycleTrace E s.context ∧
      (∀ b i, Event.write b i ∈ cycleTrace E s.context ↔ b = s.context ∧ i < 14) ∧
      (∀ (mem2 : Nat → Nat → Nat) (t2 : Int) (i : Nat), i < 14 →
        (draw_cube_iter E s t d).1.mem s.context i =
          (draw_cube_iter E { s with mem := mem2 } t2 d).1.mem s.context i) ∧
      (∀ b i, ¬ (b = s.context ∧ i < 14) → (draw_cube_iter E s t d).1.mem b i = s.mem b i) ∧
      (draw_cube_iter E s t d).1.mem s.context 12 = u64 (E.DMA_TAG 0 0 E.DMA_END 0 0 0) ∧
      (draw_cube_iter E s t d).1.mem s.context 13 = 0 ∧
      (∀ i, (memsetZero s ⟨s.context, 0⟩ (16 * 6 / 8)).mem s.context i =
        if i < 12 then 0 else s.mem s.context i) ∧
      vifCreatePacket 9 = 144 ∧ 14 * 8 = 112 ∧ 14 * 8 ≤ vifCreatePacket 9 := by
  refine ⟨iter_curr E s t d, iter_trace E s t d, cycleTrace_write_mem E s.context, ?_, ?_, ?_, ?_,
    ?_, by decide, by decide, by decide⟩
  · intro mem2 t2 i hi
    rw [iter_mem, iter_mem]
    simp [hi]
  · intro b i h
    rw [iter_mem, if_neg h]
  · rw [iter_mem]; simp [packetWords]
  · rw [iter_mem, if_pos ⟨rfl, by decide⟩]; rfl
  · intro i
    rw [memsetZero_mem]
    simp

end Vu1
